import Mathlib

/-
Verification of the buddhabrot renderer (buddhabrot.c) against its
natural-language specification.

The embedding models the C program's exact real arithmetic over the
rationals (the double computations involved in the claims are exact
affine maps, squares, additions and comparisons, idealised here as
exact arithmetic; the escape test cabs(z) >= 2 is modelled as
normSq z >= 4, which is equivalent over the reals).  Machine ints are
modelled as Int (no overflow is reached in the scenarios considered),
C's (int) cast of a double is truncation toward zero (ratTrunc), and
malloc'd memory, which the C program never zeroes, is modelled by an
explicit arbitrary-contents parameter.  Divisions whose C counterpart
is undefined (0/0, x/0) are modelled with Option, returning none.
-/

namespace Buddhabrot

/-- Complex numbers with exact rational components, modelling the
C `complex double` values flowing through the program. -/
structure Cpx where
  re : Rat
  im : Rat
deriving DecidableEq

/-- Complex addition. -/
def cadd (a b : Cpx) : Cpx := ⟨a.re + b.re, a.im + b.im⟩

/-- Complex multiplication. -/
def cmul (a b : Cpx) : Cpx := ⟨a.re * b.re - a.im * b.im, a.re * b.im + a.im * b.re⟩

/-- Squared magnitude; `cabs(z) >= 2` in the C source is `normSq z >= 4` here. -/
def normSq (z : Cpx) : Rat := z.re * z.re + z.im * z.im

/-- Truncation of a rational toward zero, the semantics of C's `(int)`
cast applied to a double value: floor for nonnegative values, ceiling
for negative ones. -/
def ratTrunc (q : Rat) : Int := if 0 ≤ q then ⌊q⌋ else -⌊-q⌋

/-- Embeds `px2cx`: pixel coordinates to complex-plane coordinates,
with the hardcoded default viewport re in the interval from -2 to 1 and
im in the interval from -1 to 1:
`(3.0 / width * x - 2) + (2.0 / height * y - 1) * I`. -/
def px2cx (w h : Nat) (x y : Int) : Cpx :=
  ⟨3 / (w : Rat) * (x : Rat) - 2, 2 / (h : Rat) * (y : Rat) - 1⟩

/-- Embeds `cx2px`: complex-plane coordinates back to pixel coordinates,
truncating with the `(int)` cast:
`x = (int)((creal(z) + 2) * width / 3); y = (int)((cimag(z) + 1) * height / 2)`. -/
def cx2px (w h : Nat) (z : Cpx) : Int × Int :=
  (ratTrunc ((z.re + 2) * (w : Rat) / 3), ratTrunc ((z.im + 1) * (h : Rat) / 2))

theorem ratTrunc_intCast (n : Int) : ratTrunc ((n : Int) : Rat) = n := by
  rcases le_or_lt 0 n with h | h
  · have : (0 : Rat) ≤ (n : Rat) := by exact_mod_cast h
    simp [ratTrunc, this]
  · have : ¬ (0 : Rat) ≤ (n : Rat) := by
      simp only [not_le]
      exact_mod_cast h
    simp only [ratTrunc, this, if_false]
    rw [← Int.cast_neg, Int.floor_intCast, neg_neg]

/-- Claim C9: for every integer pixel (x, y) inside the grid, mapping
through `px2cx` (the affine map onto the default viewport, re from -2
to 1 and im from -1 to 1) and back through the truncating `cx2px`
recovers exactly (x, y): the scale factors cancel exactly, so the
truncation acts on an integer-valued rational. -/
theorem C9_roundtrip (w h : Nat) (x y : Int)
    (hx0 : 0 ≤ x) (hxw : x < (w : Int)) (hy0 : 0 ≤ y) (hyh : y < (h : Int)) :
    cx2px w h (px2cx w h x y) = (x, y) := by
  have hw : (w : Rat) ≠ 0 := by
    have hwn : 0 < w := by exact_mod_cast lt_of_le_of_lt hx0 hxw
    exact Nat.cast_ne_zero.mpr hwn.ne'
  have hh : (h : Rat) ≠ 0 := by
    have hhn : 0 < h := by exact_mod_cast lt_of_le_of_lt hy0 hyh
    exact Nat.cast_ne_zero.mpr hhn.ne'
  have hargx : ((px2cx w h x y).re + 2) * (w : Rat) / 3 = (x : Rat) := by
    simp only [px2cx]
    field_simp
    ring
  have hargy : ((px2cx w h x y).im + 1) * (h : Rat) / 2 = (y : Rat) := by
    simp only [px2cx]
    field_simp
  simp only [cx2px, hargx, hargy, ratTrunc_intCast]

theorem C9_roundtrip_witness :
    0 ≤ (2 : Int) ∧ (2 : Int) < ((4 : Nat) : Int) ∧
    0 ≤ (3 : Int) ∧ (3 : Int) < ((4 : Nat) : Int) ∧
    cx2px 4 4 (px2cx 4 4 2 3) = (2, 3) :=
  ⟨by decide, by decide, by decide, by decide,
    C9_roundtrip 4 4 2 3 (by decide) (by decide) (by decide) (by decide)⟩

/-- Embeds the compile-time iteration cap `#define ITERATIONS 40000`. -/
def ITERATIONS : Nat := 40000

/-- Embeds the loop of `iterate(b, x, y, cb)` with a non-null callback,
collecting every value handed to the callback.  The state is the current
z, the 1-based counter i, and the remaining loop entries
(`fuel = b->iterations - i`, since the loop runs while `i < b->iterations`).
Each entry computes `z = z*z + c`, returns the counter if
`cabs(z) >= 2` (here: squared magnitude at least 4), and otherwise
invokes the callback on z (here: records z) and continues. -/
def iterLoop (c : Cpx) : Cpx → Nat → Nat → Nat × List Cpx
  | _, i, 0 => (i, [])
  | z, i, fuel + 1 =>
      let z2 := cadd (cmul z z) c
      if 4 ≤ normSq z2 then (i, [])
      else
        let r := iterLoop c z2 (i + 1) fuel
        (r.1, z2 :: r.2)

/-- Embeds the loop of `iterate(b, x, y, NULL)`, the cb == NULL path
used by pass 1: identical control flow, no callback. -/
def classifyLoop (c : Cpx) : Cpx → Nat → Nat → Nat
  | _, i, 0 => i
  | z, i, fuel + 1 =>
      let z2 := cadd (cmul z z) c
      if 4 ≤ normSq z2 then i else classifyLoop c z2 (i + 1) fuel

/-- Embeds `iterate(b, x, y, cb)` with a callback: c = px2cx(x, y),
z = 0, i = 1; returns the iteration count together with the list of
values passed to the callback, in call order. -/
def iterate (w h maxIter : Nat) (x y : Int) : Nat × List Cpx :=
  iterLoop (px2cx w h x y) ⟨0, 0⟩ 1 (maxIter - 1)

/-- Embeds `iterate(b, x, y, NULL)` as called by pass 1. -/
def classify (w h maxIter : Nat) (x y : Int) : Nat :=
  classifyLoop (px2cx w h x y) ⟨0, 0⟩ 1 (maxIter - 1)

/-- Embeds the escape flag stored by `buddha_calc_escapes`:
`b->escapes[offs] = (its != ITERATIONS)`.  Note that the source
compares against the compile-time macro ITERATIONS, not against the
configured `b->iterations`. -/
def escapeFlag (w h maxIter : Nat) (x y : Int) : Bool :=
  classify w h maxIter x y != ITERATIONS

/-- The orbit of 0 under z := z*z + c: `orbit c n` is the n-th iterated
value, so `orbit c 0 = 0` and `orbit c (n+1) = (orbit c n)^2 + c`. -/
def orbit (c : Cpx) : Nat → Cpx
  | 0 => ⟨0, 0⟩
  | n + 1 => cadd (cmul (orbit c n) (orbit c n)) c

theorem classifyLoop_eq_iterLoop (c : Cpx) :
    ∀ (fuel : Nat) (z : Cpx) (i : Nat),
      classifyLoop c z i fuel = (iterLoop c z i fuel).1 := by
  intro fuel
  induction fuel with
  | zero => intro z i; rfl
  | succ n ih =>
      intro z i
      simp only [classifyLoop, iterLoop]
      split
      · rfl
      · exact ih _ _

theorem iterLoop_count_eq (c : Cpx) :
    ∀ (fuel : Nat) (z : Cpx) (i : Nat),
      (iterLoop c z i fuel).1 = i + (iterLoop c z i fuel).2.length := by
  intro fuel
  induction fuel with
  | zero => intro z i; simp [iterLoop]
  | succ n ih =>
      intro z i
      simp only [iterLoop]
      split
      · simp
      · simp only [List.length_cons]
        rw [ih]
        omega

theorem iterLoop_len_le (c : Cpx) :
    ∀ (fuel : Nat) (z : Cpx) (i : Nat),
      (iterLoop c z i fuel).2.length ≤ fuel := by
  intro fuel
  induction fuel with
  | zero => intro z i; simp [iterLoop]
  | succ n ih =>
      intro z i
      simp only [iterLoop]
      split
      · simp
      · simp only [List.length_cons]
        exact Nat.succ_le_succ (ih _ _)

theorem iterLoop_visited (c : Cpx) :
    ∀ (fuel : Nat) (z : Cpx) (i : Nat) (z' : Cpx),
      z' ∈ (iterLoop c z i fuel).2 → normSq z' < 4 := by
  intro fuel
  induction fuel with
  | zero => intro z i z' hz; simp [iterLoop] at hz
  | succ n ih =>
      intro z i z' hz
      simp only [iterLoop] at hz
      by_cases hesc : 4 ≤ normSq (cadd (cmul z z) c)
      · rw [if_pos hesc] at hz
        simp at hz
      · rw [if_neg hesc] at hz
        simp only [List.mem_cons] at hz
        rcases hz with hz | hz
        · subst hz; exact lt_of_not_le hesc
        · exact ih _ _ _ hz

theorem iterLoop_trace (c : Cpx) :
    ∀ (fuel m i : Nat),
      (iterLoop c (orbit c m) i fuel).2 =
        (List.range (iterLoop c (orbit c m) i fuel).2.length).map
          (fun k => orbit c (m + k + 1)) := by
  intro fuel
  induction fuel with
  | zero => intro m i; simp [iterLoop]
  | succ n ih =>
      intro m i
      have horb : cadd (cmul (orbit c m) (orbit c m)) c = orbit c (m + 1) := rfl
      simp only [iterLoop, horb]
      by_cases hesc : 4 ≤ normSq (orbit c (m + 1))
      · rw [if_pos hesc]
        simp
      · rw [if_neg hesc]
        simp only [List.length_cons]
        rw [List.range_succ_eq_map, List.map_cons, List.map_map]
        refine congrArg₂ List.cons (by simp) ?_
        rw [ih (m + 1) (i + 1)]
        simp only [List.length_map, List.length_range]
        refine congrArg₂ List.map ?_ rfl
        funext k
        simp only [Function.comp_apply]
        congr 1
        omega

theorem iterLoop_count_noescape (c : Cpx) :
    ∀ (fuel m i : Nat),
      (∀ k, m < k → k ≤ m + fuel → normSq (orbit c k) < 4) →
      (iterLoop c (orbit c m) i fuel).1 = i + fuel := by
  intro fuel
  induction fuel with
  | zero => intro m i _; simp [iterLoop]
  | succ n ih =>
      intro m i hk
      have horb : cadd (cmul (orbit c m) (orbit c m)) c = orbit c (m + 1) := rfl
      simp only [iterLoop, horb]
      have hlt : normSq (orbit c (m + 1)) < 4 := hk (m + 1) (by omega) (by omega)
      rw [if_neg (not_le.mpr hlt)]
      have := ih (m + 1) (i + 1) (fun k h1 h2 => hk k (by omega) (by omega))
      simp only [this]
      omega

theorem iterLoop_count_escape (c : Cpx) :
    ∀ (fuel m i j : Nat), m < j → j ≤ m + fuel →
      4 ≤ normSq (orbit c j) →
      (∀ k, m < k → k < j → normSq (orbit c k) < 4) →
      (iterLoop c (orbit c m) i fuel).1 = i + (j - m) - 1 := by
  intro fuel
  induction fuel with
  | zero => intro m i j h1 h2 _ _; omega
  | succ n ih =>
      intro m i j h1 h2 hj hk
      have horb : cadd (cmul (orbit c m) (orbit c m)) c = orbit c (m + 1) := rfl
      simp only [iterLoop, horb]
      by_cases hesc : 4 ≤ normSq (orbit c (m + 1))
      · rw [if_pos hesc]
        have hjm : j = m + 1 := by
          by_contra hne
          exact absurd hesc (not_le.mpr (hk (m + 1) (by omega) (by omega)))
        simp only [hjm]
        omega
      · rw [if_neg hesc]
        have hjm : m + 1 < j := by
          rcases Nat.lt_or_ge (m + 1) j with h | h
          · exact h
          · have : j = m + 1 := by omega
            exact absurd (this ▸ hj) hesc
        have := ih (m + 1) (i + 1) j hjm (by omega) hj
          (fun k ha hb => hk k (by omega) hb)
        simp only [this]
        omega

/-- Claim C10: for every pixel and maxIter at least 1, the iteration
routine returns a count r with 1 <= r <= maxIter, hands exactly r - 1
values to its callback, and every value handed to the callback has
squared magnitude strictly below 4 (callback fires only after the
escape test failed for that value). -/
theorem C10_iterate_bounds (w h maxIter : Nat) (x y : Int) (hm : 1 ≤ maxIter) :
    1 ≤ (iterate w h maxIter x y).1 ∧
    (iterate w h maxIter x y).1 ≤ maxIter ∧
    (iterate w h maxIter x y).2.length = (iterate w h maxIter x y).1 - 1 ∧
    ∀ z, z ∈ (iterate w h maxIter x y).2 → normSq z < 4 := by
  have hcount := iterLoop_count_eq (px2cx w h x y) (maxIter - 1) ⟨0, 0⟩ 1
  have hlen := iterLoop_len_le (px2cx w h x y) (maxIter - 1) ⟨0, 0⟩ 1
  refine ⟨?_, ?_, ?_, ?_⟩
  · simp only [iterate, hcount]; omega
  · simp only [iterate] at hcount hlen ⊢; omega
  · simp only [iterate] at hcount ⊢; omega
  · intro z hz
    exact iterLoop_visited (px2cx w h x y) (maxIter - 1) ⟨0, 0⟩ 1 z hz

theorem C10_iterate_bounds_witness :
    1 ≤ 5 ∧
    (1 ≤ (iterate 3 2 5 1 0).1 ∧
     (iterate 3 2 5 1 0).1 ≤ 5 ∧
     (iterate 3 2 5 1 0).2.length = (iterate 3 2 5 1 0).1 - 1 ∧
     ∀ z, z ∈ (iterate 3 2 5 1 0).2 → normSq z < 4) :=
  ⟨by decide, C10_iterate_bounds 3 2 5 1 0 (by decide)⟩

/-- Claim C3: for every pixel and every maxIter, the traced iteration
performs the same iteration and returns the same count as the
cb == NULL classification (unconditionally, bounded pixels included),
and whenever the returned count r is below maxIter the callback
received exactly the orbit values at steps 1 through r - 1, in order —
the terminal escaping value at step r is never passed to it. -/
theorem C3_trace (w h maxIter : Nat) (x y : Int) :
    classify w h maxIter x y = (iterate w h maxIter x y).1 ∧
    ((iterate w h maxIter x y).1 < maxIter →
      (iterate w h maxIter x y).2 =
        (List.range ((iterate w h maxIter x y).1 - 1)).map
          (fun k => orbit (px2cx w h x y) (k + 1))) := by
  constructor
  · exact classifyLoop_eq_iterLoop (px2cx w h x y) (maxIter - 1) ⟨0, 0⟩ 1
  · intro _hr
    have hcount : (iterLoop (px2cx w h x y) (orbit (px2cx w h x y) 0) 1 (maxIter - 1)).1 =
        1 + (iterLoop (px2cx w h x y) (orbit (px2cx w h x y) 0) 1 (maxIter - 1)).2.length :=
      iterLoop_count_eq (px2cx w h x y) (maxIter - 1) ⟨0, 0⟩ 1
    have htr := iterLoop_trace (px2cx w h x y) (maxIter - 1) 0 1
    have hlen : (iterLoop (px2cx w h x y) (orbit (px2cx w h x y) 0) 1 (maxIter - 1)).2.length =
        (iterLoop (px2cx w h x y) (orbit (px2cx w h x y) 0) 1 (maxIter - 1)).1 - 1 := by
      omega
    show (iterLoop (px2cx w h x y) (orbit (px2cx w h x y) 0) 1 (maxIter - 1)).2 =
      (List.range ((iterLoop (px2cx w h x y) (orbit (px2cx w h x y) 0) 1 (maxIter - 1)).1 - 1)).map
        (fun k => orbit (px2cx w h x y) (k + 1))
    rw [htr, hlen]
    refine congrArg₂ List.map ?_ rfl
    funext k
    congr 1
    omega

theorem C3_trace_witness :
    classify 3 2 5 1 0 = (iterate 3 2 5 1 0).1 ∧
    (iterate 3 2 5 1 0).1 < 5 ∧
    (iterate 3 2 5 1 0).2 =
      (List.range ((iterate 3 2 5 1 0).1 - 1)).map
        (fun k => orbit (px2cx 3 2 1 0) (k + 1)) :=
  ⟨(C3_trace 3 2 5 1 0).1,
   by norm_num [iterate, iterLoop, px2cx, cadd, cmul, normSq],
   (C3_trace 3 2 5 1 0).2 (by norm_num [iterate, iterLoop, px2cx, cadd, cmul, normSq])⟩

/-- Claim C1 as frozen is false on the code: with a 3-by-2 grid and
maxIter = 2, pixel (2, 1) maps to c = 0, which never escapes, so
classification returns maxIter = 2 and the claim requires the escape
flag to be clear (2 < 2 fails); `buddha_calc_escapes` instead compares
the count against the macro ITERATIONS = 40000 and sets the flag. -/
theorem C1_counterexample :
    escapeFlag 3 2 2 2 1 = true ∧ ¬ (classify 3 2 2 2 1 < 2) := by
  have hcl : classify 3 2 2 2 1 = 2 := by
    norm_num [classify, classifyLoop, px2cx, cadd, cmul, normSq]
  constructor
  · show (classify 3 2 2 2 1 != ITERATIONS) = true
    rw [hcl]
    decide
  · rw [hcl]
    decide

/-- Claim C1 (amended): classification returns the 1-based index of the
first orbit value whose squared magnitude reaches 4 when that index is
below maxIter, and maxIter otherwise; pass 1 stores the escape flag as
count != ITERATIONS (the compile-time macro, 40000), not as
count < maxIter; the two coincide exactly when maxIter = ITERATIONS,
which is the only configuration the shipped program runs. -/
theorem C1_amended (w h maxIter : Nat) (x y : Int) (hm : 1 ≤ maxIter) :
    ((∀ j, 1 ≤ j → j < maxIter → normSq (orbit (px2cx w h x y) j) < 4) →
        classify w h maxIter x y = maxIter) ∧
    (∀ j, 1 ≤ j → j < maxIter → 4 ≤ normSq (orbit (px2cx w h x y) j) →
        (∀ k, 1 ≤ k → k < j → normSq (orbit (px2cx w h x y) k) < 4) →
        classify w h maxIter x y = j) ∧
    (escapeFlag w h maxIter x y = true ↔ classify w h maxIter x y ≠ ITERATIONS) ∧
    (maxIter = ITERATIONS →
        (escapeFlag w h maxIter x y = true ↔ classify w h maxIter x y < maxIter)) := by
  have hclass : classify w h maxIter x y =
      (iterLoop (px2cx w h x y) (orbit (px2cx w h x y) 0) 1 (maxIter - 1)).1 :=
    classifyLoop_eq_iterLoop (px2cx w h x y) (maxIter - 1) ⟨0, 0⟩ 1
  refine ⟨?_, ?_, ?_, ?_⟩
  · intro hall
    have := iterLoop_count_noescape (px2cx w h x y) (maxIter - 1) 0 1
      (fun k h1 h2 => hall k (by omega) (by omega))
    rw [hclass, this]
    omega
  · intro j hj1 hj2 hj4 hfirst
    have := iterLoop_count_escape (px2cx w h x y) (maxIter - 1) 0 1 j (by omega) (by omega)
      hj4 (fun k h1 h2 => hfirst k (by omega) h2)
    rw [hclass, this]
    omega
  · simp [escapeFlag, bne_iff_ne]
  · intro hIT
    have hcount : (iterLoop (px2cx w h x y) (orbit (px2cx w h x y) 0) 1 (maxIter - 1)).1 =
        1 + (iterLoop (px2cx w h x y) (orbit (px2cx w h x y) 0) 1 (maxIter - 1)).2.length :=
      iterLoop_count_eq (px2cx w h x y) (maxIter - 1) ⟨0, 0⟩ 1
    have hlenle : (iterLoop (px2cx w h x y) (orbit (px2cx w h x y) 0) 1 (maxIter - 1)).2.length ≤
        maxIter - 1 :=
      iterLoop_len_le (px2cx w h x y) (maxIter - 1) ⟨0, 0⟩ 1
    have hle : classify w h maxIter x y ≤ maxIter := by
      rw [hclass, hcount]
      omega
    subst hIT
    simp only [escapeFlag, bne_iff_ne, ne_eq]
    omega

theorem C1_amended_witness :
    1 ≤ 40000 ∧
    (((∀ j, 1 ≤ j → j < 40000 → normSq (orbit (px2cx 1 1 0 0) j) < 4) →
        classify 1 1 40000 0 0 = 40000) ∧
     (∀ j, 1 ≤ j → j < 40000 → 4 ≤ normSq (orbit (px2cx 1 1 0 0) j) →
        (∀ k, 1 ≤ k → k < j → normSq (orbit (px2cx 1 1 0 0) k) < 4) →
        classify 1 1 40000 0 0 = j) ∧
     (escapeFlag 1 1 40000 0 0 = true ↔ classify 1 1 40000 0 0 ≠ ITERATIONS) ∧
     (40000 = ITERATIONS →
        (escapeFlag 1 1 40000 0 0 = true ↔ classify 1 1 40000 0 0 < 40000))) :=
  ⟨by decide, C1_amended 1 1 40000 0 0 (by decide)⟩

/-- The flat offset `offs = y * b->width + x` computed by
`buddha_plot_callback` from the pixel coordinates of a visited value. -/
def visitOffs (w h : Nat) (z : Cpx) : Int :=
  (cx2px w h z).2 * (w : Int) + (cx2px w h z).1

/-- Embeds `buddha_plot_callback`: maps z to pixel coordinates, forms
the flat offset, and drops the visit when `offs < 0 || offs > max_offs`
with `max_offs = width * height - 1`; otherwise increments the plot
counter at that offset and raises the running max if exceeded.  The
state is the plot array paired with the running max. -/
def plotCallback (w h : Nat) (plot : List Int) (mx : Int) (z : Cpx) : List Int × Int :=
  let offs := visitOffs w h z
  if offs < 0 ∨ (w : Int) * (h : Int) - 1 < offs then (plot, mx)
  else
    let o := offs.toNat
    let cnew := plot.getD o 0 + 1
    (plot.set o cnew, if mx < cnew then cnew else mx)

/-- Embeds the plot-related part of `buddha_init`: `b->plot` is
allocated with malloc and never zeroed, so its initial contents are
arbitrary (the `plotGarbage` parameter); `b->max` is set to 0. -/
def buddha_init_plot (plotGarbage : List Int) : List Int × Int :=
  (plotGarbage, 0)

/-- Folds `buddha_plot_callback` over a sequence of visited orbit
values, as the accumulation pass does. -/
def accumulate (w h : Nat) (st : List Int × Int) (vs : List Cpx) : List Int × Int :=
  vs.foldl (fun s z => plotCallback w h s.1 s.2 z) st

/-- The true maximum counter value present in a plot array (0 for an
empty plot, matching the initial `b->max`). -/
def gridMax (plot : List Int) : Int :=
  plot.foldl (fun a b => if a < b then b else a) 0

theorem getD_set_self :
    ∀ (l : List Int) (i : Nat) (v : Int), i < l.length → (l.set i v).getD i 0 = v := by
  intro l
  induction l with
  | nil => intro i v h; simp at h
  | cons a t ih =>
      intro i v h
      cases i with
      | zero => rfl
      | succ n =>
          simp only [List.set_cons_succ, List.getD_cons_succ]
          exact ih n v (by simpa using h)

theorem getD_set_other :
    ∀ (l : List Int) (i j : Nat) (v : Int), i ≠ j → (l.set i v).getD j 0 = l.getD j 0 := by
  intro l
  induction l with
  | nil => intro i j v _; simp [List.set]
  | cons a t ih =>
      intro i j v hne
      cases i with
      | zero =>
          cases j with
          | zero => exact absurd rfl hne
          | succ m => simp [List.getD_cons_succ]
      | succ n =>
          cases j with
          | zero => rfl
          | succ m =>
              simp only [List.set_cons_succ, List.getD_cons_succ]
              exact ih n m v (fun hc => hne (by omega))

/-- Claim C2 as frozen is false on the code: on a 4-by-4 grid the
visited value z = -25/8 - i/4 maps to pixel (-1, 1), outside the
rectangle, yet its flat offset 1*4 + (-1) = 3 passes the offset-only
bounds check and the counter of pixel (3, 0) is incremented. -/
theorem C2_counterexample :
    (cx2px 4 4 ⟨-25 / 8, -1 / 4⟩).1 = -1 ∧
    (cx2px 4 4 ⟨-25 / 8, -1 / 4⟩).2 = 1 ∧
    (plotCallback 4 4 (List.replicate 16 0) 0 ⟨-25 / 8, -1 / 4⟩).1.getD 3 0 = 1 ∧
    (List.replicate 16 (0 : Int)).getD 3 0 = 0 := by
  have hx : (cx2px 4 4 ⟨-25 / 8, -1 / 4⟩).1 = -1 := by
    norm_num [cx2px, ratTrunc]
  have hy : (cx2px 4 4 ⟨-25 / 8, -1 / 4⟩).2 = 1 := by
    norm_num [cx2px, ratTrunc]
  refine ⟨hx, hy, ?_, by decide⟩
  have hoffs : visitOffs 4 4 ⟨-25 / 8, -1 / 4⟩ = 3 := by
    rw [visitOffs, hx, hy]
    decide
  rw [plotCallback, hoffs]
  norm_num
  decide

/-- Claim C2 (amended): a visit is kept or dropped by the flat-offset
test `0 <= y*width + x <= width*height - 1` alone, not by the rectangle
test.  A kept visit increments exactly the counter at that offset and
leaves every other counter unchanged; a dropped visit changes nothing.
Coordinates inside the rectangle always pass the offset test, but some
out-of-rectangle coordinates (such as negative x with positive y) also
pass it and alias another pixel's counter. -/
theorem C2_amended (w h : Nat) (plot : List Int) (mx : Int) (z : Cpx)
    (hlen : plot.length = w * h) :
    ((0 ≤ visitOffs w h z ∧ visitOffs w h z ≤ (w : Int) * (h : Int) - 1) →
        ((plotCallback w h plot mx z).1.getD (visitOffs w h z).toNat 0 =
            plot.getD (visitOffs w h z).toNat 0 + 1) ∧
        (∀ i : Nat, i ≠ (visitOffs w h z).toNat →
            (plotCallback w h plot mx z).1.getD i 0 = plot.getD i 0)) ∧
    ((visitOffs w h z < 0 ∨ (w : Int) * (h : Int) - 1 < visitOffs w h z) →
        plotCallback w h plot mx z = (plot, mx)) ∧
    ((0 ≤ (cx2px w h z).1 ∧ (cx2px w h z).1 < (w : Int) ∧
      0 ≤ (cx2px w h z).2 ∧ (cx2px w h z).2 < (h : Int)) →
        0 ≤ visitOffs w h z ∧ visitOffs w h z ≤ (w : Int) * (h : Int) - 1) := by
  refine ⟨?_, ?_, ?_⟩
  · intro hin
    have hcond : ¬ (visitOffs w h z < 0 ∨ (w : Int) * (h : Int) - 1 < visitOffs w h z) := by
      omega
    rw [plotCallback, if_neg hcond]
    have hofflt : (visitOffs w h z).toNat < plot.length := by
      rw [hlen]
      omega
    constructor
    · exact getD_set_self plot (visitOffs w h z).toNat _ hofflt
    · intro i hi
      exact getD_set_other plot (visitOffs w h z).toNat i _ (fun hc => hi hc.symm)
  · intro hout
    rw [plotCallback, if_pos hout]
  · intro ⟨hx0, hxw, hy0, hyh⟩
    constructor
    · have : 0 ≤ (cx2px w h z).2 * (w : Int) := mul_nonneg hy0 (by positivity)
      simp only [visitOffs]
      omega
    · simp only [visitOffs]
      nlinarith [hx0, hxw, hy0, hyh]

theorem C2_amended_witness :
    (List.replicate 16 (0 : Int)).length = 4 * 4 ∧
    (((0 ≤ visitOffs 4 4 (Cpx.mk (-25 / 8) (-1 / 4)) ∧
       visitOffs 4 4 (Cpx.mk (-25 / 8) (-1 / 4)) ≤ (4 : Int) * (4 : Int) - 1) →
        ((plotCallback 4 4 (List.replicate 16 0) 0 (Cpx.mk (-25 / 8) (-1 / 4))).1.getD
            (visitOffs 4 4 (Cpx.mk (-25 / 8) (-1 / 4))).toNat 0 =
          (List.replicate 16 (0 : Int)).getD
            (visitOffs 4 4 (Cpx.mk (-25 / 8) (-1 / 4))).toNat 0 + 1) ∧
        (∀ i : Nat, i ≠ (visitOffs 4 4 (Cpx.mk (-25 / 8) (-1 / 4))).toNat →
            (plotCallback 4 4 (List.replicate 16 0) 0 (Cpx.mk (-25 / 8) (-1 / 4))).1.getD i 0 =
              (List.replicate 16 (0 : Int)).getD i 0)) ∧
     ((visitOffs 4 4 (Cpx.mk (-25 / 8) (-1 / 4)) < 0 ∨
       (4 : Int) * (4 : Int) - 1 < visitOffs 4 4 (Cpx.mk (-25 / 8) (-1 / 4))) →
        plotCallback 4 4 (List.replicate 16 0) 0 (Cpx.mk (-25 / 8) (-1 / 4)) =
          (List.replicate 16 0, 0)) ∧
     ((0 ≤ (cx2px 4 4 (Cpx.mk (-25 / 8) (-1 / 4))).1 ∧
       (cx2px 4 4 (Cpx.mk (-25 / 8) (-1 / 4))).1 < (4 : Int) ∧
       0 ≤ (cx2px 4 4 (Cpx.mk (-25 / 8) (-1 / 4))).2 ∧
       (cx2px 4 4 (Cpx.mk (-25 / 8) (-1 / 4))).2 < (4 : Int)) →
        0 ≤ visitOffs 4 4 (Cpx.mk (-25 / 8) (-1 / 4)) ∧
        visitOffs 4 4 (Cpx.mk (-25 / 8) (-1 / 4)) ≤ (4 : Int) * (4 : Int) - 1)) :=
  ⟨by decide, C2_amended 4 4 (List.replicate 16 0) 0 (Cpx.mk (-25 / 8) (-1 / 4)) (by decide)⟩

/-- Claim C5 is contradicted by the code: `buddha_init` mallocs the
plot array without zeroing it, so counts do not start at zero.  Here,
with indeterminate initial contents [0, 7] on a 2-by-1 grid, a single
visit to offset 0 leaves the plot at [1, 7] with running max 1, while
the true maximum count in the grid is 7. -/
theorem C5_uninitialized_plot :
    (buddha_init_plot [0, 7]).1.getD 1 0 ≠ 0 ∧
    accumulate 2 1 (buddha_init_plot [0, 7]) [Cpx.mk (-2) (-1)] = ([1, 7], 1) ∧
    gridMax (accumulate 2 1 (buddha_init_plot [0, 7]) [Cpx.mk (-2) (-1)]).1 = 7 ∧
    (accumulate 2 1 (buddha_init_plot [0, 7]) [Cpx.mk (-2) (-1)]).2 ≠
      gridMax (accumulate 2 1 (buddha_init_plot [0, 7]) [Cpx.mk (-2) (-1)]).1 := by
  have hstep : accumulate 2 1 (buddha_init_plot [0, 7]) [Cpx.mk (-2) (-1)] = ([1, 7], 1) := by
    have hoffs : visitOffs 2 1 (Cpx.mk (-2) (-1)) = 0 := by
      norm_num [visitOffs, cx2px, ratTrunc]
    show plotCallback 2 1 [0, 7] 0 (Cpx.mk (-2) (-1)) = ([1, 7], 1)
    rw [plotCallback, hoffs]
    norm_num
  refine ⟨by decide, hstep, ?_, ?_⟩
  · rw [hstep]
    decide
  · rw [hstep]
    decide

/-- Statistics record mirroring the fields `buddha_compute_stats`
fills in.  `mean` is Option-valued because the source computes
`(double)sum / n` and stores the int conversion: when n = 0 the
division is 0.0/0.0 and the conversion of the resulting NaN to int is
undefined, modelled as none; otherwise the truncated quotient.
`recorded` exposes the walk's final p, the number of percentile slots
actually written, so the untouched trailing slots can be spoken
about. -/
structure Stats where
  count_frequency : Int → Int
  num_escaped : Nat
  sum : Int
  mean : Option Int
  percentile_limit : List Int
  recorded : Nat
  max : Int

/-- Embeds `malloc(sizeof(int) * b->max)` in `buddha_compute_stats`:
the count-frequency table is allocated with exactly max entries, so its
valid indices are 0 through max - 1. -/
def count_frequency_alloc_entries (mx : Int) : Int := mx

/-- Embeds the first scan of `buddha_compute_stats`: for every nonzero
plot count c it runs `count_frequency[c]++`, `n++`, `sum += c`.  The
malloc'd table is never zeroed by the source, so the scan starts from
arbitrary initial contents `freqInit`; the table is modelled as an
unbounded `Int → Int` map so that the source's out-of-bounds access at
index max (the allocation has only max entries, see C6) still has a
describable effect. -/
def scanFreq : List Int → (Int → Int) → (Int → Int) × Nat × Int
  | [], f => (f, 0, 0)
  | c :: rest, f =>
      if c ≠ 0 then
        let f2 := fun j => if j = c then f c + 1 else f j
        let r := scanFreq rest f2
        (r.1, r.2.1 + 1, r.2.2 + c)
      else scanFreq rest f

/-- Embeds the percentile walk of `buddha_compute_stats`: i runs from 0
while i < max (`steps` is the number of loop entries remaining); each
entry adds `count_frequency[i]` to the cumulative frequency and, when
that exceeds lim, records i into `percentile_limit[p]`, increments p
and advances lim by d = n/10; the loop breaks once p reaches 10.
Returns the limits array together with the final p. -/
def percwalk (f : Int → Int) (d : Rat) : Nat → Nat → Int → Rat → List Int → Nat → List Int × Nat
  | _, 0, _, _, limits, p => (limits, p)
  | i, steps + 1, cum, lim, limits, p =>
      let cum2 := cum + f (i : Int)
      if lim < (cum2 : Rat) then
        let limits2 := limits.set p (i : Int)
        if p + 1 = 10 then (limits2, p + 1)
        else percwalk f d (i + 1) steps cum2 (lim + d) limits2 (p + 1)
      else percwalk f d (i + 1) steps cum2 lim limits p

/-- Embeds `buddha_compute_stats`.  The parameters model the memory the
source leaves indeterminate: `freqInit` is the malloc'd frequency
table's initial contents and `limitsInit` the prior contents of the
percentile_limit field (stack garbage on a first run).  `mx` is the
b->max field.  After the walk the source hardcodes
`percentile_limit[9] = b->max`. -/
def computeStats (plot : List Int) (mx : Int) (freqInit : Int → Int)
    (limitsInit : List Int) : Stats :=
  let s := scanFreq plot freqInit
  let f := s.1
  let n := s.2.1
  let sum := s.2.2
  let d : Rat := (n : Rat) / 10
  let wk := percwalk f d 0 mx.toNat 0 d limitsInit 0
  { count_frequency := f
    num_escaped := n
    sum := sum
    mean := if n = 0 then none else some (Int.tdiv sum (n : Int))
    percentile_limit := wk.1.set 9 mx
    recorded := wk.2
    max := mx }

/-- Claim C6 is contradicted by the code: on a plot whose only visited
cell has count 1 (so max = 1) the table is allocated with
max = 1 entries, making index c = max = 1 out of bounds (the claim
needs max + 1 entries), and because the allocation is never zeroed the
scanned entry equals garbage plus the true cell count (6 here, from
initial garbage 5) instead of the exact number of cells (1). -/
theorem C6_alloc_overflow :
    count_frequency_alloc_entries 1 = 1 ∧
    ¬ ((1 : Int) < count_frequency_alloc_entries 1) ∧
    (scanFreq [1] (fun _ => 5)).1 1 = 6 ∧
    ([1] : List Int).count 1 = 1 :=
  ⟨rfl, by decide, by decide, by decide⟩

/-- Claim C7 is contradicted by the code: a 1-by-1 run over the default
viewport maps its single pixel to c = -2 - i, which escapes on the very
first iteration, so the accumulation pass performs no visits and every
count is zero.  `buddha_compute_stats` then reaches
`b->mean = (double)sum / n` with n = 0 — an unguarded 0.0/0.0 whose
conversion to int is undefined (mean = none in the model) — and nothing
detects or reports the degenerate run. -/
theorem C7_mean_div_by_zero :
    iterate 1 1 40000 0 0 = (1, []) ∧
    escapeFlag 1 1 40000 0 0 = true ∧
    (computeStats [0] 0 (fun _ => 0) [0, 0, 0, 0, 0, 0, 0, 0, 0, 0]).num_escaped = 0 ∧
    (computeStats [0] 0 (fun _ => 0) [0, 0, 0, 0, 0, 0, 0, 0, 0, 0]).mean = none := by
  have hc : px2cx 1 1 0 0 = ⟨-2, -1⟩ := by
    norm_num [px2cx]
  refine ⟨?_, ?_, rfl, rfl⟩
  · show iterLoop (px2cx 1 1 0 0) ⟨0, 0⟩ 1 (40000 - 1) = (1, [])
    rw [hc]
    show iterLoop ⟨-2, -1⟩ ⟨0, 0⟩ 1 39999 = (1, [])
    rw [iterLoop]
    norm_num [cadd, cmul, normSq]
  · have hcl : classify 1 1 40000 0 0 = 1 := by
      show classifyLoop (px2cx 1 1 0 0) ⟨0, 0⟩ 1 (40000 - 1) = 1
      rw [hc]
      show classifyLoop ⟨-2, -1⟩ ⟨0, 0⟩ 1 39999 = 1
      rw [classifyLoop]
      norm_num [cadd, cmul, normSq]
    show (classify 1 1 40000 0 0 != ITERATIONS) = true
    rw [hcl]
    decide

theorem percwalk_invariant (f : Int → Int) (d : Rat) :
    ∀ (steps i : Nat) (cum : Int) (lim : Rat) (L : List Int) (p : Nat),
      p < 10 → L.length = 10 →
      (percwalk f d i steps cum lim L p).1.length = 10 ∧
      p ≤ (percwalk f d i steps cum lim L p).2 ∧
      (percwalk f d i steps cum lim L p).2 ≤ 10 ∧
      (∀ k, k < p → (percwalk f d i steps cum lim L p).1.getD k 0 = L.getD k 0) ∧
      (∀ k, (percwalk f d i steps cum lim L p).2 ≤ k → k < 10 →
          (percwalk f d i steps cum lim L p).1.getD k 0 = L.getD k 0) ∧
      (∀ k, p ≤ k → k < (percwalk f d i steps cum lim L p).2 →
          (i : Int) ≤ (percwalk f d i steps cum lim L p).1.getD k 0 ∧
          (percwalk f d i steps cum lim L p).1.getD k 0 < (i : Int) + (steps : Int)) ∧
      (∀ k, p ≤ k → k + 1 < (percwalk f d i steps cum lim L p).2 →
          (percwalk f d i steps cum lim L p).1.getD k 0 <
            (percwalk f d i steps cum lim L p).1.getD (k + 1) 0) := by
  intro steps
  induction steps with
  | zero =>
      intro i cum lim L p hp hL
      refine ⟨hL, le_refl p, le_of_lt hp, fun k _ => rfl, fun k _ _ => rfl,
        fun k h1 h2 => absurd (lt_of_le_of_lt h1 h2) (lt_irrefl p), fun k h1 h2 => ?_⟩
      exact absurd (lt_of_le_of_lt (Nat.le_succ_of_le h1) h2) (lt_irrefl p)
  | succ n ih =>
      intro i cum lim L p hp hL
      by_cases hc : lim < ((cum + f (i : Int) : Int) : Rat)
      · by_cases hp10 : p + 1 = 10
        · have hres : percwalk f d i (n + 1) cum lim L p = (L.set p (i : Int), p + 1) := by
            simp only [percwalk]
            rw [if_pos hc, if_pos hp10]
          rw [hres]
          refine ⟨by simp [hL], Nat.le_succ p, by omega, ?_, ?_, ?_, ?_⟩
          · intro k hk
            exact getD_set_other L p k _ (by omega)
          · intro k hk1 hk2
            omega
          · intro k hk1 hk2
            have hkp : k = p := by omega
            subst hkp
            have hval : (L.set k (i : Int)).getD k 0 = (i : Int) :=
              getD_set_self L k _ (by omega)
            rw [hval]
            constructor
            · exact le_refl _
            · have : (0 : Int) < ((n : Int) + 1) := by positivity
              push_cast
              omega
          · intro k hk1 hk2
            omega
        · have hp1 : p + 1 < 10 := by omega
          have hres : percwalk f d i (n + 1) cum lim L p =
              percwalk f d (i + 1) n (cum + f (i : Int)) (lim + d) (L.set p (i : Int)) (p + 1) := by
            simp only [percwalk]
            rw [if_pos hc, if_neg hp10]
          rw [hres]
          obtain ⟨ih1, ih2, ih3, ih4, ih5, ih6, ih7⟩ :=
            ih (i + 1) (cum + f (i : Int)) (lim + d) (L.set p (i : Int)) (p + 1) hp1
              (by simp [hL])
          refine ⟨ih1, by omega, ih3, ?_, ?_, ?_, ?_⟩
          · intro k hk
            rw [ih4 k (by omega)]
            exact getD_set_other L p k _ (by omega)
          · intro k hk1 hk2
            rw [ih5 k hk1 hk2]
            exact getD_set_other L p k _ (by omega)
          · intro k hk1 hk2
            rcases Nat.eq_or_lt_of_le hk1 with hkp | hkp
            · subst hkp
              have hval : (percwalk f d (i + 1) n (cum + f (i : Int)) (lim + d)
                  (L.set p (i : Int)) (p + 1)).1.getD p 0 = (i : Int) := by
                rw [ih4 p (by omega)]
                exact getD_set_self L p _ (by omega)
              rw [hval]
              refine ⟨le_refl _, ?_⟩
              push_cast
              omega
            · have hb := ih6 k (by omega) hk2
              push_cast at hb ⊢
              omega
          · intro k hk1 hk2
            rcases Nat.eq_or_lt_of_le hk1 with hkp | hkp
            · subst hkp
              have hval : (percwalk f d (i + 1) n (cum + f (i : Int)) (lim + d)
                  (L.set p (i : Int)) (p + 1)).1.getD p 0 = (i : Int) := by
                rw [ih4 p (by omega)]
                exact getD_set_self L p _ (by omega)
              rw [hval]
              have hb := ih6 (p + 1) (by omega) hk2
              push_cast at hb
              omega
            · exact ih7 k (by omega) hk2
      · have hres : percwalk f d i (n + 1) cum lim L p =
            percwalk f d (i + 1) n (cum + f (i : Int)) lim L p := by
          simp only [percwalk]
          rw [if_neg hc]
        rw [hres]
        obtain ⟨ih1, ih2, ih3, ih4, ih5, ih6, ih7⟩ :=
          ih (i + 1) (cum + f (i : Int)) lim L p hp hL
        refine ⟨ih1, ih2, ih3, ih4, ih5, ?_, ih7⟩
        intro k hk1 hk2
        have hb := ih6 k hk1 hk2
        push_cast at hb ⊢
        omega

/-- Claim C4 as frozen is false on the code: on a finished grid with a
single visited cell of count 1 (a nonzero escaping population), the
percentile walk records nothing (the cumulative frequency over indices
0 .. max-1 never exceeds n/10), so slots 0 through 8 keep whatever the
uninitialized percentile_limit field held before — here 9 and 8 in
slots 0 and 1, which is not monotonically non-decreasing. -/
theorem C4_counterexample :
    (computeStats [1] 1 (fun _ => 0) [9, 8, 0, 0, 0, 0, 0, 0, 0, 0]).num_escaped ≠ 0 ∧
    ¬ ((computeStats [1] 1 (fun _ => 0) [9, 8, 0, 0, 0, 0, 0, 0, 0, 0]).percentile_limit.getD 0 0 ≤
       (computeStats [1] 1 (fun _ => 0) [9, 8, 0, 0, 0, 0, 0, 0, 0, 0]).percentile_limit.getD 1 0) := by
  have hwalk : percwalk (scanFreq [1] (fun _ => 0)).1
      (((scanFreq [1] (fun _ => 0)).2.1 : Rat) / 10) 0 (Int.toNat 1) 0
      (((scanFreq [1] (fun _ => 0)).2.1 : Rat) / 10)
      [9, 8, 0, 0, 0, 0, 0, 0, 0, 0] 0 = ([9, 8, 0, 0, 0, 0, 0, 0, 0, 0], 0) := by
    show percwalk (scanFreq [1] (fun _ => 0)).1
      (((scanFreq [1] (fun _ => 0)).2.1 : Rat) / 10) 0 1 0
      (((scanFreq [1] (fun _ => 0)).2.1 : Rat) / 10)
      [9, 8, 0, 0, 0, 0, 0, 0, 0, 0] 0 = ([9, 8, 0, 0, 0, 0, 0, 0, 0, 0], 0)
    rw [percwalk]
    have hcond : ¬ ((((scanFreq [1] (fun _ => 0)).2.1 : Rat) / 10) <
        (((0 + (scanFreq [1] (fun _ => 0)).1 ((0 : Nat) : Int) : Int)) : Rat)) := by
      show ¬ (((1 : Nat) : Rat) / 10 < (((0 + (0 : Int)) : Int) : Rat))
      norm_num
    rw [if_neg hcond]
    rfl
  have hPL : (computeStats [1] 1 (fun _ => 0) [9, 8, 0, 0, 0, 0, 0, 0, 0, 0]).percentile_limit =
      [9, 8, 0, 0, 0, 0, 0, 0, 0, 1] := by
    show (percwalk (scanFreq [1] (fun _ => 0)).1
      (((scanFreq [1] (fun _ => 0)).2.1 : Rat) / 10) 0 (Int.toNat 1) 0
      (((scanFreq [1] (fun _ => 0)).2.1 : Rat) / 10)
      [9, 8, 0, 0, 0, 0, 0, 0, 0, 0] 0).1.set 9 1 = [9, 8, 0, 0, 0, 0, 0, 0, 0, 1]
    rw [hwalk]
    rfl
  refine ⟨by decide, ?_⟩
  rw [hPL]
  decide

/-- Claim C4 (amended): `percentile_limit[9]` is hardcoded to the
stored max, and the thresholds the walk actually records (slots 0
through recorded - 1) are strictly increasing and strictly below max;
but slots from `recorded` through 8 are left holding whatever the
percentile_limit field contained before the call (uninitialized stack
memory on a first run), so monotonicity of the full array and
initialization of every slot are not guaranteed. -/
theorem C4_amended (plot : List Int) (mx : Int) (freqInit : Int → Int) (limitsInit : List Int)
    (hmx : 0 ≤ mx) (hlen : limitsInit.length = 10) :
    (computeStats plot mx freqInit limitsInit).percentile_limit.length = 10 ∧
    (computeStats plot mx freqInit limitsInit).percentile_limit.getD 9 0 = mx ∧
    (computeStats plot mx freqInit limitsInit).recorded ≤ 10 ∧
    (∀ k, k + 1 < (computeStats plot mx freqInit limitsInit).recorded → k + 1 ≤ 8 →
        (computeStats plot mx freqInit limitsInit).percentile_limit.getD k 0 <
          (computeStats plot mx freqInit limitsInit).percentile_limit.getD (k + 1) 0) ∧
    (∀ k, k < (computeStats plot mx freqInit limitsInit).recorded → k ≤ 8 →
        (computeStats plot mx freqInit limitsInit).percentile_limit.getD k 0 < mx) ∧
    (∀ k, (computeStats plot mx freqInit limitsInit).recorded ≤ k → k ≤ 8 →
        (computeStats plot mx freqInit limitsInit).percentile_limit.getD k 0 =
          limitsInit.getD k 0) := by
  have hPL : (computeStats plot mx freqInit limitsInit).percentile_limit =
      (percwalk (scanFreq plot freqInit).1 (((scanFreq plot freqInit).2.1 : Rat) / 10) 0
        mx.toNat 0 (((scanFreq plot freqInit).2.1 : Rat) / 10) limitsInit 0).1.set 9 mx := rfl
  have hR : (computeStats plot mx freqInit limitsInit).recorded =
      (percwalk (scanFreq plot freqInit).1 (((scanFreq plot freqInit).2.1 : Rat) / 10) 0
        mx.toNat 0 (((scanFreq plot freqInit).2.1 : Rat) / 10) limitsInit 0).2 := rfl
  obtain ⟨h1, h2, h3, h4, h5, h6, h7⟩ :=
    percwalk_invariant (scanFreq plot freqInit).1 (((scanFreq plot freqInit).2.1 : Rat) / 10)
      mx.toNat 0 0 (((scanFreq plot freqInit).2.1 : Rat) / 10) limitsInit 0 (by omega) hlen
  rw [hPL, hR]
  refine ⟨by simp [h1], ?_, h3, ?_, ?_, ?_⟩
  · exact getD_set_self _ 9 mx (by omega)
  · intro k hk1 hk2
    rw [getD_set_other _ 9 k mx (by omega), getD_set_other _ 9 (k + 1) mx (by omega)]
    exact h7 k (Nat.zero_le k) hk1
  · intro k hk1 hk2
    rw [getD_set_other _ 9 k mx (by omega)]
    have hb := (h6 k (Nat.zero_le k) hk1).2
    have htn : ((mx.toNat : Nat) : Int) = mx := Int.toNat_of_nonneg hmx
    push_cast at hb
    omega
  · intro k hk1 hk2
    rw [getD_set_other _ 9 k mx (by omega)]
    exact h5 k hk1 (by omega)

theorem C4_amended_witness :
    0 ≤ (2 : Int) ∧
    ([0, 0, 0, 0, 0, 0, 0, 0, 0, 0] : List Int).length = 10 ∧
    ((computeStats [1, 2] 2 (fun _ => 0) [0, 0, 0, 0, 0, 0, 0, 0, 0, 0]).percentile_limit.length = 10 ∧
     (computeStats [1, 2] 2 (fun _ => 0) [0, 0, 0, 0, 0, 0, 0, 0, 0, 0]).percentile_limit.getD 9 0 = 2 ∧
     (computeStats [1, 2] 2 (fun _ => 0) [0, 0, 0, 0, 0, 0, 0, 0, 0, 0]).recorded ≤ 10 ∧
     (∀ k, k + 1 < (computeStats [1, 2] 2 (fun _ => 0) [0, 0, 0, 0, 0, 0, 0, 0, 0, 0]).recorded →
        k + 1 ≤ 8 →
        (computeStats [1, 2] 2 (fun _ => 0) [0, 0, 0, 0, 0, 0, 0, 0, 0, 0]).percentile_limit.getD k 0 <
          (computeStats [1, 2] 2 (fun _ => 0) [0, 0, 0, 0, 0, 0, 0, 0, 0, 0]).percentile_limit.getD (k + 1) 0) ∧
     (∀ k, k < (computeStats [1, 2] 2 (fun _ => 0) [0, 0, 0, 0, 0, 0, 0, 0, 0, 0]).recorded →
        k ≤ 8 →
        (computeStats [1, 2] 2 (fun _ => 0) [0, 0, 0, 0, 0, 0, 0, 0, 0, 0]).percentile_limit.getD k 0 < 2) ∧
     (∀ k, (computeStats [1, 2] 2 (fun _ => 0) [0, 0, 0, 0, 0, 0, 0, 0, 0, 0]).recorded ≤ k →
        k ≤ 8 →
        (computeStats [1, 2] 2 (fun _ => 0) [0, 0, 0, 0, 0, 0, 0, 0, 0, 0]).percentile_limit.getD k 0 =
          ([0, 0, 0, 0, 0, 0, 0, 0, 0, 0] : List Int).getD k 0)) :=
  ⟨by decide, by decide, C4_amended [1, 2] 2 (fun _ => 0) [0, 0, 0, 0, 0, 0, 0, 0, 0, 0]
    (by decide) (by decide)⟩

/-- Embeds `rgb(r, g, b)`: each channel is scaled by 255, converted to
int, and packed as `(r << 16) + (g << 8) + b`. -/
def rgb (r g b : Rat) : Int :=
  ratTrunc (r * 255) * 65536 + ratTrunc (g * 255) * 256 + ratTrunc (b * 255)

/-- Embeds `rank_in_percentile(b, lo, hi, c)`: computes
`((double)c - cl) / (ch - cl)` with cl and ch the percentile limits at
lo and hi, and returns it through the function's declared int type
(truncation).  The source performs the division unconditionally; when
ch = cl it divides by zero, producing a non-finite double whose
conversion to int is undefined — modelled here as none.  There is no
guard or clamp in the source. -/
def rank_in_percentile (limits : List Int) (lo hi : Nat) (c : Int) : Option Int :=
  let cl : Rat := ((limits.getD lo 0 : Int) : Rat)
  let ch : Rat := ((limits.getD hi 0 : Int) : Rat)
  if ch - cl = 0 then none
  else some (ratTrunc (((c : Rat) - cl) / (ch - cl)))

/-- Embeds `getcolor(b, count)`: count 0 is black, then the percentile
bands select a rank computation and a channel mix; a none from a
zero-width band's division propagates. -/
def getcolor (limits : List Int) (count : Int) : Option Int :=
  if count = 0 then some 0
  else if count ≤ limits.getD 1 0 then
    (rank_in_percentile limits 0 1 count).map (fun a => rgb 0 0 ((a : Int) : Rat))
  else if count ≤ limits.getD 2 0 then
    (rank_in_percentile limits 1 2 count).map (fun a => rgb ((a : Int) : Rat) 0 1)
  else if count ≤ limits.getD 4 0 then
    (rank_in_percentile limits 2 4 count).map (fun a => rgb 1 0 (1 - ((a : Int) : Rat)))
  else if count ≤ limits.getD 5 0 then
    (rank_in_percentile limits 4 5 count).map (fun a => rgb 1 ((a : Int) : Rat) 0)
  else if count ≤ limits.getD 6 0 then
    (rank_in_percentile limits 5 6 count).map (fun a => rgb (1 - ((a : Int) : Rat)) 1 0)
  else if count < limits.getD 7 0 then
    (rank_in_percentile limits 6 7 count).map (fun a => rgb 0 1 ((a : Int) : Rat))
  else
    (rank_in_percentile limits 7 9 count).map (fun a => rgb ((a : Int) : Rat) 1 1)

/-- Claim C8 is contradicted by the code: with adjacent equal
thresholds percentile_limit[0] = percentile_limit[1] = 5 (a zero-width
bottom band) and count 3, `getcolor` calls `rank_in_percentile(0, 1, 3)`
which computes (3 - 5) / (5 - 5), dividing by zero; no guard clamps the
rank to 0 and no well-defined color results (none in the model). -/
theorem C8_rank_div_by_zero :
    rank_in_percentile [5, 5, 6, 7, 8, 9, 10, 11, 12, 13] 0 1 3 = none ∧
    getcolor [5, 5, 6, 7, 8, 9, 10, 11, 12, 13] 3 = none := by
  have hrank : rank_in_percentile [5, 5, 6, 7, 8, 9, 10, 11, 12, 13] 0 1 3 = none := by
    rw [rank_in_percentile]
    norm_num
  refine ⟨hrank, ?_⟩
  rw [getcolor]
  rw [if_neg (by decide : ¬ (3 : Int) = 0), if_pos (by decide : (3 : Int) ≤
    ([5, 5, 6, 7, 8, 9, 10, 11, 12, 13] : List Int).getD 1 0), hrank]
  rfl

end Buddhabrot
